import Mathlib

/-
Shallow embedding of the mother-demo backend (src/backend) and proofs of
its specified properties.

Modelling conventions:
- All wall-clock values (time.time(), datetime.utcnow(), ISO timestamp
  strings) are rationals measured in seconds.  An event's `timestamp` is
  `Option ℚ`; `none` models a missing/empty/unparseable timestamp string.
- Python floats become `ℚ`; all constants appearing in the code
  (0.3, 0.45, 1.5, ...) are exact decimal fractions, so `ℚ` arithmetic
  agrees with the float arithmetic on every value reached in the claims.
- `random.uniform`/generator randomness is passed in as an explicit
  oracle argument (the sampled value), constrained by hypotheses.
- Fallible storage (`add_event` raising) is modelled by a failure oracle
  `fails : Event → Bool` saying which add calls raise.
-/

set_option autoImplicit false
set_option maxRecDepth 4096
set_option linter.unusedVariables false

namespace MotherDemo

/-- Event record (backend/modules/utils.py, dataclass `Event`).
`id = 0` models the Python sentinel "not yet stored" (`0`/`None`).
The `parsed` and `recommendation` payloads (open `Dict[str, Any]`) are
carried through the code untouched and are not inspected by any verified
property, so they are omitted from the embedding. -/
structure Event where
  id : Nat
  timestamp : Option ℚ
  source_ip : String
  dest_port : Nat
  phase : String
  category : String
  severity : String
  chain_id : Option String
  stage : Option String
  raw : String
  deriving Repr, DecidableEq

/-- Per-severity counters: the fixed four-key dict built by
`get_dashboard_counts` / `get_deltas` (backend/modules/state.py). -/
structure SevCounts where
  benign : Nat
  suspicious : Nat
  malicious : Nat
  critical : Nat
  deriving Repr, DecidableEq

/-- The event store (backend/modules/state.py): the rolling deque
`_events` (oldest first, `maxlen = _MAX_EVENTS`) plus the global counter
`_event_counter`. -/
structure Store where
  events : List Event
  counter : Nat
  deriving Repr, DecidableEq

def emptyStore : Store := { events := [], counter := 0 }

/-- Capacity of the rolling buffer (`_MAX_EVENTS = 500`). -/
def MAX_EVENTS : Nat := 500

/-- `next_event_id`: bump the global counter and return it (ids start
at 1).  Returns (new id, new counter value). -/
def next_event_id (counter : Nat) : Nat × Nat :=
  (counter + 1, counter + 1)

/-- `_ensure_timestamp`: fill a missing timestamp with the current time. -/
def ensure_timestamp (now : ℚ) (e : Event) : Event :=
  match e.timestamp with
  | none => { e with timestamp := some now }
  | some _ => e

/-- `add_event` (state.py): assign an id if missing/zero, fill the
timestamp if missing, append to the deque (whose `maxlen` drops the
oldest element when the length would exceed capacity).  Returns the
stored event and the new store. -/
def add_event (now : ℚ) (s : Store) (e : Event) : Event × Store :=
  let (e, counter) :=
    if e.id = 0 then ({ e with id := s.counter + 1 }, s.counter + 1)
    else (e, s.counter)
  let e := ensure_timestamp now e
  let buf := s.events ++ [e]
  let buf := if MAX_EVENTS < buf.length then buf.tail else buf
  (e, { events := buf, counter := counter })

/-- `get_event_by_id` (state.py): linear scan over `reversed(_events)`
(newest insertion first), returning the first event with the id. -/
def get_event_by_id (s : Store) (event_id : Nat) : Option Event :=
  s.events.reverse.find? (fun e => e.id == event_id)

/-- One step of the counting loop in `get_dashboard_counts`/`get_deltas`:
`if e.severity in counts: counts[e.severity] += 1` — only the four known
keys are ever incremented. -/
def bumpSeverity (c : SevCounts) (sev : String) : SevCounts :=
  if sev = "benign" then { c with benign := c.benign + 1 }
  else if sev = "suspicious" then { c with suspicious := c.suspicious + 1 }
  else if sev = "malicious" then { c with malicious := c.malicious + 1 }
  else if sev = "critical" then { c with critical := c.critical + 1 }
  else c

def countSeverities (evs : List Event) : SevCounts :=
  evs.foldl (fun c e => bumpSeverity c e.severity) ⟨0, 0, 0, 0⟩

/-- `get_dashboard_counts` (state.py): total buffer length plus the
four-key per-severity map (returned in Python as a dict with keys
"total" and "by_severity"; modelled as a pair). -/
def get_dashboard_counts (s : Store) : Nat × SevCounts :=
  (s.events.length, countSeverities s.events)

/-- Strict "newer" comparison on the Python sort key `(timestamp, id)`.
ISO-8601 strings of the same clock compare lexicographically exactly as
the underlying instants, so the key is modelled as `(ℚ, Nat)` lex. -/
def eventKeyLt (a b : Event) : Bool :=
  let ta := a.timestamp.getD 0
  let tb := b.timestamp.getD 0
  decide (ta < tb) || (decide (ta = tb) && decide (a.id < b.id))

/-- Stable insertion used to model Python's stable `sorted(...,
reverse=True)`: `e` is placed before the first element that is not
strictly newer than it, so equal keys keep their original order. -/
def insertDescStable (e : Event) : List Event → List Event
  | [] => [e]
  | x :: xs => if eventKeyLt e x then x :: insertDescStable e xs else e :: x :: xs

/-- `sorted(result, key=lambda e: (e.timestamp, e.id), reverse=True)`:
stable descending sort by `(timestamp, id)` (extensionally equal to
Python's stable sort). -/
def sortNewestFirst : List Event → List Event
  | [] => []
  | e :: rest => insertDescStable e (sortNewestFirst rest)

/-- `get_events_in_window` (state.py): events whose timestamp parses and
is ≥ `now - seconds`, newest first.  Events with a missing timestamp are
skipped (`continue`). -/
def get_events_in_window (seconds : ℚ) (now : ℚ) (s : Store) : List Event :=
  let cutoff := now - seconds
  sortNewestFirst (s.events.filter (fun e =>
    match e.timestamp with
    | none => false
    | some ts => decide (cutoff ≤ ts)))

/-- `get_deltas` (state.py): severity counts over the last 15 seconds. -/
def get_deltas (now : ℚ) (s : Store) : SevCounts :=
  countSeverities (get_events_in_window 15 now s)

/-- `_seconds_ago` (classifier.py / posture.py): age of a timestamp;
an unparseable/missing timestamp falls back to `utcnow()`, i.e. age 0. -/
def secondsAgo (now : ℚ) (ts : Option ℚ) : ℚ :=
  match ts with
  | none => 0
  | some t => now - t

/-- Output of `classify_event` (classifier.py). -/
structure Classification where
  risk : String
  confidence : ℚ
  factors : List String
  deriving Repr, DecidableEq

/-- `classify_event` (classifier.py): stage-keyed risk, confidence
accumulated from a 0.3 baseline with fixed increments, clamped to
[0, 1], plus the ordered list of factor strings that fired. -/
def classify_event (now : ℚ) (event : Event) : Classification :=
  let severity := event.severity
  let age := secondsAgo now event.timestamp
  if event.stage = some ("noise") then
    { risk := "low", confidence := 2/10, factors := ["noise category → low risk"] }
  else
    let base : String × ℚ × List String :=
      if event.stage = some ("recon") then
        ("medium", 3/10 + 1/10, ["recon activity detected"])
      else if event.stage = some ("intrusion") then
        ("high", 3/10 + 25/100, ["intrusion indicators present"])
      else if event.stage = some ("exploit") then
        ("critical", 3/10 + 45/100, ["exploit behavior detected"])
      else
        ("medium", 3/10, ["unknown stage → assume medium risk"])
    let risk := base.1
    let afterSeverity : ℚ × List String :=
      if severity = "malicious" then
        (base.2.1 + 15/100, base.2.2 ++ ["severity=malicious → increased risk"])
      else if severity = "critical" then
        (base.2.1 + 3/10, base.2.2 ++ ["severity=critical → high concern"])
      else
        (base.2.1, base.2.2)
    let afterRecency : ℚ × List String :=
      if age < 60 then
        (afterSeverity.1 + 1/10, afterSeverity.2 ++ ["recent activity (<60s)"])
      else
        afterSeverity
    { risk := risk, confidence := max 0 (min afterRecency.1 1), factors := afterRecency.2 }

/-- Keep the first occurrence of every element (Python
`dict.fromkeys(...)` / `Counter` key order). -/
def dedupKeepFirst {α : Type} [BEq α] (l : List α) : List α :=
  l.foldl (fun acc a => if acc.contains a then acc else acc ++ [a]) []

/-- `Counter(l).most_common(1)[0]`: the element with the greatest
multiplicity; ties go to the first-inserted key (Python's sort is
stable, and Counter keys are in first-occurrence order). Returns
`("", 0)` on the empty list (never reached: callers guard nonempty). -/
def mostCommon (l : List String) : String × Nat :=
  (dedupKeepFirst l).foldl
    (fun best k => let c := l.count k; if best.2 < c then (k, c) else best)
    ("", 0)

/-- Output of `classify_chain` (classifier.py); `chain_id` is stitched
on afterwards by `get_posture` (state.py). -/
structure ChainSummary where
  risk : String
  confidence : ℚ
  stages : List (Option String)
  ip : Option String
  factors : List String
  chain_id : Option String
  deriving Repr, DecidableEq

/-- `classify_chain` (classifier.py): risk from the distinct stage
sequence, confidence from a 0.4 baseline plus tier/severity/duplicate
bonuses, clamped to [0, 1].
`set(distinct_stages) == {"recon"}` holds exactly when the (nonempty,
duplicate-free) distinct-stage list is `[some "recon"]`. -/
def classify_chain (chain_events : List Event) : ChainSummary :=
  match chain_events with
  | [] =>
    { risk := "low", confidence := 0, stages := [], ip := none,
      factors := ["empty chain"], chain_id := none }
  | _ =>
    let stages := chain_events.map (·.stage)
    let sev := chain_events.map (·.severity)
    let ips := chain_events.map (·.source_ip)
    let distinct_stages := dedupKeepFirst stages
    let base : String × ℚ × List String :=
      if distinct_stages = [some ("recon")] then
        ("medium", 4/10, ["recon-only chain → medium risk"])
      else if stages.contains (some ("exploit")) then
        ("critical", 4/10 + 35/100, ["exploit stage present → critical risk"])
      else if stages.contains (some ("intrusion")) then
        ("high", 4/10 + 20/100, ["intrusion indicators → high risk"])
      else if stages.contains (some ("recon")) then
        ("medium", 4/10 + 10/100, ["recon sequence → medium risk"])
      else
        ("low", 4/10, ["default chain rule → low risk"])
    let afterSeverity : ℚ × List String :=
      if sev.contains ("critical") then
        (base.2.1 + 25/100, base.2.2 ++ ["critical severity event in chain"])
      else if sev.contains ("malicious") then
        (base.2.1 + 15/100, base.2.2 ++ ["malicious severity in chain"])
      else
        (base.2.1, base.2.2)
    let dom := mostCommon ips
    let afterDup : ℚ × List String :=
      if 1 < dom.2 then
        (afterSeverity.1 + 1/10,
         afterSeverity.2 ++ [toString dom.2 ++ " repeated actions from IP " ++ dom.1])
      else
        afterSeverity
    { risk := base.1, confidence := max 0 (min afterDup.1 1),
      stages := distinct_stages, ip := some dom.1,
      factors := afterDup.2, chain_id := none }

/-- `determine_posture` (backend/modules/posture.py): the ordered
decision list (critical chain → LOCKDOWN; ≥ 2 malicious events from one
source within 30 s → RESTRICT; all benign → MONITOR; else ELEVATED).
`Counter(malicious_ips)` with `any(v >= 2 ...)` is modelled by checking
each distinct ip's multiplicity in `malicious_ips`. -/
def determine_posture (now : ℚ) (recent_events : List Event)
    (chain_summaries : List ChainSummary) : String :=
  if chain_summaries.any (fun s => s.risk == "critical") then "LOCKDOWN"
  else
    let malicious_ips :=
      (recent_events.filter (fun e =>
        e.severity == "malicious" && decide (secondsAgo now e.timestamp ≤ 30))).map
        (·.source_ip)
    if !malicious_ips.isEmpty &&
        (dedupKeepFirst malicious_ips).any (fun ip => decide (2 ≤ malicious_ips.count ip)) then
      "RESTRICT"
    else if recent_events.all (fun e => e.severity == "benign") then "MONITOR"
    else "ELEVATED"

/-- Chain grouping in `get_posture` (state.py):
`chains.setdefault(cid, []).append(ev)` over the recent events, skipping
falsy chain ids (`None` and the empty string); groups keep first-seen
order, members keep event order. -/
def groupByChain (evs : List Event) : List (String × List Event) :=
  evs.foldl
    (fun acc e =>
      match e.chain_id with
      | none => acc
      | some cid =>
        if cid = "" then acc
        else if acc.any (fun g => g.1 == cid) then
          acc.map (fun g => if g.1 == cid then (g.1, g.2 ++ [e]) else g)
        else acc ++ [(cid, [e])])
    []

/-- `get_posture` (state.py, `window_seconds = 15`): classify each chain
among the recent events and run the posture engine. -/
def get_posture (now : ℚ) (s : Store) : String :=
  let recent := get_events_in_window 15 now s
  let chain_summaries := (groupByChain recent).map
    (fun g => { classify_chain g.2 with chain_id := some g.1 })
  determine_posture now recent chain_summaries

/-- The `/api/dashboard` response (backend/main.py, `dashboard`). -/
structure DashboardOut where
  posture : String
  counts : SevCounts
  total : Nat
  delta : SevCounts
  deriving Repr, DecidableEq

/-- `dashboard` (main.py): posture + counts + total + 15-second deltas,
all read from the store at the current time. -/
def dashboard (now : ℚ) (s : Store) : DashboardOut :=
  let c := get_dashboard_counts s
  { posture := get_posture now s, counts := c.2, total := c.1,
    delta := get_deltas now s }

/-- One call of the `dashboard` endpoint as a state transformer: every
function on its path (`get_dashboard_counts`, `get_posture`,
`get_deltas`, `get_events_in_window`) only reads `_events`, so the call
returns the store unchanged. -/
def dashboardCall (s : Store) (now : ℚ) : DashboardOut × Store :=
  (dashboard now s, s)

/-- One `{delay, event}` entry of a (normalized or runtime) plan. -/
structure PlanEntry where
  delay : ℚ
  event : Event
  deriving Repr, DecidableEq

/-- The canonical plan produced by `_normalize_attack_plan` (main.py).
`chain_id` is `Option String` because the bare-list branch copies the
first event's `chain_id` attribute, which can be `None`. -/
structure NormPlan where
  chain_id : Option String
  duration : ℚ
  plan : List PlanEntry
  deriving Repr, DecidableEq

/-- One element of a new-style dict plan's `plan` list, as inspected by
the normalizer: either a dict carrying an `event` key (whose `delay` key
may be absent), or any other value, treated bodily as the event. -/
inductive RawEntry where
  | entry (delay : Option ℚ) (event : Event)
  | bare (event : Event)
  deriving Repr, DecidableEq

/-- The duck-typed input of `_normalize_attack_plan`:
a dict that has a `plan` key (its `chain_id`/`duration`/`plan` values
optional — a present-but-`None` `plan` value is the same as `[]` after
`raw.get("plan") or []`), a bare list of events, or anything else
(including a dict without a `plan` key). -/
inductive RawPlan where
  | dict (chain_id : Option String) (duration : Option ℚ) (plan : Option (List RawEntry))
  | list (events : List Event)
  | other
  deriving Repr, DecidableEq

/-- Entry normalization in the dict branch: a delay+event dict is used
verbatim (missing delay → 0.0); anything else becomes the event itself
with its position index as delay. -/
def normalizeEntries : Nat → List RawEntry → List PlanEntry
  | _, [] => []
  | idx, RawEntry.entry d ev :: rest => ⟨d.getD 0, ev⟩ :: normalizeEntries (idx + 1) rest
  | idx, RawEntry.bare ev :: rest => ⟨(idx : ℚ), ev⟩ :: normalizeEntries (idx + 1) rest

/-- The bare-list branch's delay assignment:
`plan_entries.append({"delay": idx * per_event, "event": ev})`. -/
def evenDelays (per : ℚ) : Nat → List Event → List PlanEntry
  | _, [] => []
  | idx, ev :: rest => ⟨(idx : ℚ) * per, ev⟩ :: evenDelays per (idx + 1) rest

/-- `_normalize_attack_plan` (main.py).  `sampledDuration` is the value
drawn by `random.uniform(20.0, 40.0)` in the bare-list branch.  Note the
bare-list spacing step is `duration / max(len(events), 1)` — a division
by N, not by N-1. -/
def normalize_attack_plan (sampledDuration : ℚ) : RawPlan → NormPlan
  | RawPlan.dict cid dur entries =>
    { chain_id := some (cid.getD ("unknown")),
      duration := dur.getD 0,
      plan := normalizeEntries 0 (entries.getD []) }
  | RawPlan.list events =>
    if events.isEmpty then
      { chain_id := some ("invalid"), duration := 0, plan := [] }
    else
      let duration := sampledDuration
      let per_event := duration / ((max events.length 1 : Nat) : ℚ)
      let chain_id := (events.head?).bind (·.chain_id)
      { chain_id := chain_id, duration := duration,
        plan := evenDelays per_event 0 events }
  | RawPlan.other =>
    { chain_id := some ("invalid"), duration := 0, plan := [] }

/-- A runtime plan (main.py `_attack_plans` entry): normalized plan plus
`start_time` and the cursor `index`. -/
structure RuntimePlan where
  chain_id : Option String
  duration : ℚ
  plan : List PlanEntry
  start_time : ℚ
  index : Nat
  deriving Repr, DecidableEq

/-- `_create_runtime_plan` (main.py): normalize the generator output;
an empty plan yields `None`, otherwise attach `start_time = now`,
`index = 0`. -/
def create_runtime_plan (sampledDuration : ℚ) (raw : RawPlan) (now : ℚ) :
    Option RuntimePlan :=
  let normalized := normalize_attack_plan sampledDuration raw
  if normalized.plan.isEmpty then none
  else some { chain_id := normalized.chain_id, duration := normalized.duration,
              plan := normalized.plan, start_time := now, index := 0 }

/-- `MAX_ACTIVE_PLANS = 15` (main.py). -/
def MAX_ACTIVE_PLANS : Nat := 15

/-- `_TRIGGER_COOLDOWN = 1.5` (main.py). -/
def TRIGGER_COOLDOWN : ℚ := 3/2

/-- `_MAX_TRIGGERS_PER_MIN = 30` (main.py). -/
def MAX_TRIGGERS_PER_MIN : Nat := 30

/-- The mutable module state read by `trigger_attack` (main.py):
`_attack_plans`, `_LAST_TRIGGER` and `_TRIGGER_HISTORY` (the dicts as
association lists). -/
structure TriggerState where
  plans : List RuntimePlan
  lastTrigger : List (String × ℚ)
  history : List (String × List ℚ)
  deriving Repr, DecidableEq

/-- Dict read: `d.get(k)`. -/
def alistGet {α : Type} (k : String) (l : List (String × α)) : Option α :=
  (l.find? (fun p => p.1 == k)).map (·.2)

/-- Dict write: `d[k] = v`. -/
def alistSet {α : Type} (k : String) (v : α) (l : List (String × α)) :
    List (String × α) :=
  if l.any (fun p => p.1 == k) then
    l.map (fun p => if p.1 == k then (k, v) else p)
  else l ++ [(k, v)]

/-- The response of `/api/attack/trigger`; only `status` and `reason`
matter to the verified properties (the scheduled branch has no reason). -/
structure TriggerResponse where
  status : String
  reason : Option String
  deriving Repr, DecidableEq

/-- `trigger_attack` (main.py): per-IP cooldown, per-IP rolling rate
limit, active-chain ceiling, then plan creation and enqueue.
`sampledDuration`/`raw` stand for the randomness of
`generate_attack_scenario` inside `_create_runtime_plan`. -/
def trigger_attack (st : TriggerState) (now : ℚ) (client_ip : String)
    (raw : RawPlan) (sampledDuration : ℚ) : TriggerResponse × TriggerState :=
  let last := (alistGet client_ip st.lastTrigger).getD 0
  if now - last < TRIGGER_COOLDOWN then
    ({ status := "throttled", reason := some ("cooldown_active") }, st)
  else
    let st := { st with lastTrigger := alistSet client_ip now st.lastTrigger }
    let history := ((alistGet client_ip st.history).getD []).filter
      (fun t => decide (now - 60 ≤ t))
    let st := { st with history := alistSet client_ip history st.history }
    if MAX_TRIGGERS_PER_MIN ≤ history.length then
      ({ status := "throttled", reason := some ("rate_limit_per_minute") }, st)
    else
      let st := { st with history := alistSet client_ip (history ++ [now]) st.history }
      if MAX_ACTIVE_PLANS ≤ st.plans.length then
        ({ status := "busy", reason := some ("max_active_plans_reached") }, st)
      else
        match create_runtime_plan sampledDuration raw now with
        | none => ({ status := "skipped", reason := some ("no_attack_generated") }, st)
        | some plan =>
          ({ status := "scheduled", reason := none },
           { st with plans := st.plans ++ [plan] })

/-- The event fired during a scheduler tick:
`ev.timestamp = datetime.utcnow().isoformat()` stamps the event at the
moment of emission with the tick's clock. -/
def fireEvent (now : ℚ) (en : PlanEntry) : Event :=
  { en.event with timestamp := some now }

/-- The inner `while idx < len(entries)` loop of
`attack_scheduler_loop` (main.py), run on the not-yet-emitted suffix of
a plan's entries: emit each entry whose `start + delay` has passed
(`add_event` failures are swallowed by the oracle `fails`, the cursor
still advances), stop at the first not-yet-due entry.  Returns how many
entries were consumed and the updated store. -/
def emitFrom (now start : ℚ) (fails : Event → Bool) :
    List PlanEntry → Store → Nat × Store
  | [], store => (0, store)
  | en :: rest, store =>
    if start + en.delay ≤ now then
      let ev := fireEvent now en
      let store := if fails ev then store else (add_event now store ev).2
      let next := emitFrom now start fails rest store
      (next.1 + 1, next.2)
    else (0, store)

/-- One plan's pass inside a tick: run the emission loop from the
current cursor and advance `plan["index"]`. -/
def runPlan (now : ℚ) (fails : Event → Bool) (p : RuntimePlan) (store : Store) :
    RuntimePlan × Store :=
  let res := emitFrom now p.start_time fails (p.plan.drop p.index) store
  ({ p with index := p.index + res.1 }, res.2)

/-- One step of the tick's scan over the active plans: run one plan's
emission pass against the store threaded so far, collecting the updated
plan. -/
def tickStep (now : ℚ) (fails : Event → Bool)
    (acc : List RuntimePlan × Store) (p : RuntimePlan) :
    List RuntimePlan × Store :=
  let res := runPlan now fails p acc.2
  (acc.1 ++ [res.1], res.2)

/-- One iteration of `attack_scheduler_loop` (main.py) at clock `now`:
scan every active plan (emitting due entries and advancing cursors),
then — after the scan — drop the plans whose cursor reached the end
(the collect-then-remove of the `done` list). -/
def scheduler_tick (now : ℚ) (fails : Event → Bool)
    (plans : List RuntimePlan) (store : Store) : List RuntimePlan × Store :=
  let scanned := plans.foldl (tickStep now fails) ([], store)
  (scanned.1.filter (fun p => decide (p.index < p.plan.length)), scanned.2)

/-
Spec-side definitions: statements of expected behaviour, written from
the specification's words, to be compared with the code embeddings
above.
-/

/-- Severity is one of the four known values counted by the dashboard. -/
def knownSeverity (sev : String) : Bool :=
  sev == "benign" || sev == "suspicious" || sev == "malicious" || sev == "critical"

def sumCounts (c : SevCounts) : Nat :=
  c.benign + c.suspicious + c.malicious + c.critical

/-- The posture decision list exactly as §4.6 of the spec words it:
1. any chain summary with risk critical → LOCKDOWN;
2. two or more severity-malicious events from the same source address
   within the last 30 time units → RESTRICT;
3. all recent events benign (vacuously for an empty window) → MONITOR;
4. otherwise → ELEVATED. -/
def postureSpec (now : ℚ) (recent_events : List Event)
    (chain_summaries : List ChainSummary) : String :=
  if chain_summaries.any (fun s => s.risk == "critical") then "LOCKDOWN"
  else if recent_events.any (fun e =>
      (e.severity == "malicious" && decide (secondsAgo now e.timestamp ≤ 30)) &&
      decide (2 ≤ recent_events.countP (fun f =>
        (f.severity == "malicious" && decide (secondsAgo now f.timestamp ≤ 30)) &&
        f.source_ip == e.source_ip))) then
    "RESTRICT"
  else if recent_events.all (fun e => e.severity == "benign") then "MONITOR"
  else "ELEVATED"

/-- Fold `add_event` over a batch of events (at one clock value):
the store contents after a sequence of adds. -/
def addAll (now : ℚ) (s : Store) (l : List Event) : Store :=
  l.foldl (fun s e => (add_event now s e).2) s

/-- The stored form of a batch of fresh (id 0) events: the i-th one
gets id `k + i + 1` and a filled timestamp. -/
def stampIds (now : ℚ) : Nat → List Event → List Event
  | _, [] => []
  | k, e :: rest =>
    ensure_timestamp now { e with id := k + 1 } :: stampIds now (k + 1) rest

/-- The due prefix of a plan's pending entries at clock `now`: the
entries the tick's scan emits before hitting the first not-yet-due one. -/
def dueEntries (now : ℚ) (p : RuntimePlan) : List PlanEntry :=
  (p.plan.drop p.index).takeWhile (fun en => decide (p.start_time + en.delay ≤ now))

/-- A plan after one tick's scan: cursor advanced over the due prefix. -/
def advancePlan (now : ℚ) (p : RuntimePlan) : RuntimePlan :=
  { p with index := p.index + (dueEntries now p).length }

/-- Every event whose storage is attempted during a tick at `now`, in
emission order (due entries of each plan, plans in order, stamped at
emission time). -/
def tickAttempts (now : ℚ) (plans : List RuntimePlan) : List Event :=
  plans.foldl (fun acc p => acc ++ (dueEntries now p).map (fireEvent now)) []

/-
Concrete fixtures used as test inputs by counterexamples and witnesses.
-/

/-- An exploit-stage, critical-severity attack event stamped "now". -/
def evExploit : Event :=
  { id := 0, timestamp := some 100, source_ip := "6.6.6.6", dest_port := 443,
    phase := "attack", category := "exploit", severity := "critical",
    chain_id := some ("c1"), stage := some ("exploit"), raw := "payload upload" }

/-- First event of a bare-list scenario. -/
def evBare1 : Event :=
  { id := 0, timestamp := none, source_ip := "8.8.8.8", dest_port := 22,
    phase := "attack", category := "recon", severity := "suspicious",
    chain_id := some ("abcd1234"), stage := some ("recon"), raw := "banner grab" }

/-- Second event of a bare-list scenario. -/
def evBare2 : Event :=
  { id := 0, timestamp := none, source_ip := "8.8.8.8", dest_port := 22,
    phase := "attack", category := "exploit", severity := "critical",
    chain_id := some ("abcd1234"), stage := some ("exploit"), raw := "escalation" }

/-- A malicious event stored at time 0 with no chain id. -/
def evMal : Event :=
  { id := 1, timestamp := some 0, source_ip := "9.9.9.9", dest_port := 22,
    phase := "attack", category := "intrusion", severity := "malicious",
    chain_id := none, stage := some ("intrusion"), raw := "brute force" }

/-- A store holding just `evMal`. -/
def storeMal : Store := { events := [evMal], counter := 1 }

/-- Two distinct events submitted with the same nonzero id 5. -/
def evDup1 : Event :=
  { id := 5, timestamp := some 1, source_ip := "1.2.3.4", dest_port := 80,
    phase := "noise", category := "noise", severity := "benign",
    chain_id := none, stage := some ("noise"), raw := "first with id 5" }

def evDup2 : Event :=
  { id := 5, timestamp := some 2, source_ip := "1.2.3.4", dest_port := 80,
    phase := "noise", category := "noise", severity := "benign",
    chain_id := none, stage := some ("noise"), raw := "second with id 5" }

/-- A store holding `evDup1` then `evDup2` (same id, newer last). -/
def storeDup : Store := { events := [evDup1, evDup2], counter := 0 }

/-- An event submitted with a nonzero id of its own. -/
def evSeven : Event :=
  { id := 7, timestamp := none, source_ip := "4.4.4.4", dest_port := 53,
    phase := "noise", category := "noise", severity := "benign",
    chain_id := none, stage := some ("noise"), raw := "keeps id 7" }

/-- A fresh generator event (id 0, severity unknown to the dashboard). -/
def evZero : Event :=
  { id := 0, timestamp := none, source_ip := "2.2.2.2", dest_port := 443,
    phase := "noise", category := "noise", severity := "weird",
    chain_id := none, stage := some ("noise"), raw := "unrecognized severity" }

/-- A one-entry runtime plan used to fill the active set. -/
def planBusy : RuntimePlan :=
  { chain_id := some ("busy"), duration := 30,
    plan := [⟨0, evBare1⟩], start_time := 0, index := 0 }

/-- A trigger state already holding the ceiling's worth of plans. -/
def stBusy : TriggerState :=
  { plans := List.replicate 15 planBusy, lastTrigger := [], history := [] }

/-- A two-entry runtime plan whose delays span its whole duration. -/
def planTick : RuntimePlan :=
  { chain_id := some ("tick"), duration := 30,
    plan := [⟨0, evBare1⟩, ⟨30, evBare2⟩], start_time := 5, index := 0 }

/-
Helper lemmas (shared across the claim theorems).
-/

theorem ensure_timestamp_id (now : ℚ) (e : Event) :
    (ensure_timestamp now e).id = e.id := by
  unfold ensure_timestamp
  cases e.timestamp <;> rfl

theorem sumCounts_bump (c : SevCounts) (sev : String) :
    sumCounts (bumpSeverity c sev) =
      sumCounts c + (if knownSeverity sev = true then 1 else 0) := by
  by_cases h1 : sev = "benign"
  · subst h1; simp [bumpSeverity, knownSeverity, sumCounts]; omega
  · by_cases h2 : sev = "suspicious"
    · subst h2; simp [bumpSeverity, knownSeverity, sumCounts]; omega
    · by_cases h3 : sev = "malicious"
      · subst h3; simp [bumpSeverity, knownSeverity, sumCounts]; omega
      · by_cases h4 : sev = "critical"
        · subst h4; simp [bumpSeverity, knownSeverity, sumCounts]; omega
        · simp [bumpSeverity, knownSeverity, h1, h2, h3, h4]

theorem countSeverities_sum (l : List Event) : ∀ (c : SevCounts),
    sumCounts (l.foldl (fun c e => bumpSeverity c e.severity) c) =
      sumCounts c + l.countP (fun e => knownSeverity e.severity) := by
  induction l with
  | nil => intro c; simp
  | cons e rest ih =>
    intro c
    simp only [List.foldl_cons, List.countP_cons, ih, sumCounts_bump]
    by_cases h : knownSeverity e.severity = true
    · simp [h]; omega
    · simp [h]

/-
C10 — get_dashboard_counts counts every event in its total but only the
four known severities per-severity.
-/

/-- C10: for every store content, the dashboard total equals the buffer
length and is at least the sum of the four per-severity counts, with
strict inequality exactly when some buffered event carries a severity
other than benign/suspicious/malicious/critical. -/
theorem C10_dashboard_counts (s : Store) :
    (get_dashboard_counts s).1 = s.events.length ∧
    sumCounts (get_dashboard_counts s).2 =
      s.events.countP (fun e => knownSeverity e.severity) ∧
    sumCounts (get_dashboard_counts s).2 ≤ (get_dashboard_counts s).1 ∧
    (sumCounts (get_dashboard_counts s).2 < (get_dashboard_counts s).1 ↔
      ∃ e ∈ s.events, knownSeverity e.severity = false) := by
  have hsum : sumCounts (get_dashboard_counts s).2 =
      s.events.countP (fun e => knownSeverity e.severity) := by
    have := countSeverities_sum s.events ⟨0, 0, 0, 0⟩
    simpa [get_dashboard_counts, countSeverities, sumCounts] using this
  refine ⟨rfl, hsum, ?_, ?_⟩
  · rw [hsum]
    exact List.countP_le_length _
  · rw [hsum]
    show s.events.countP _ < s.events.length ↔ _
    constructor
    · intro hlt
      by_contra hall
      push_neg at hall
      have : ∀ e ∈ s.events, knownSeverity e.severity = true := by
        intro e he
        have := hall e he
        revert this
        cases knownSeverity e.severity <;> simp
      rw [List.countP_eq_length.mpr this] at hlt
      omega
    · intro ⟨e, he, hbad⟩
      rcases Nat.lt_or_ge (s.events.countP (fun e => knownSeverity e.severity))
        s.events.length with h | h
      · exact h
      · exfalso
        have heq : s.events.countP (fun e => knownSeverity e.severity) =
            s.events.length :=
          Nat.le_antisymm (List.countP_le_length _) h
        have := List.countP_eq_length.mp heq e he
        rw [hbad] at this
        exact Bool.false_ne_true this

/-
C8 — classify_event on an exploit/critical event stamped now.
-/

/-- C8: `classify_event` on stage "exploit", severity "critical", and a
timestamp equal to the current time yields risk "critical" with
confidence exactly 1 (0.3 + 0.45 + 0.3 + 0.1 = 1.15 clamped to 1), and
its factor list contains both the exploit entry and the
critical-severity entry. -/
theorem C8_classify_exploit_critical :
    (classify_event 100 evExploit).risk = "critical" ∧
    (classify_event 100 evExploit).confidence = 1 ∧
    "exploit behavior detected" ∈ (classify_event 100 evExploit).factors ∧
    "severity=critical → high concern" ∈ (classify_event 100 evExploit).factors := by
  simp +decide [classify_event, evExploit, secondsAgo, min_def, max_def]
  norm_num

/-
C1 — the plan normalizer's bare-list branch.
-/

/-- C1 counterexample: on a bare list of 2 events with sampled duration
30 (inside [20, 40]), the normalizer produces delays [0, 15], not the
§4.1 spacing [0, 30] = [i * duration/(N-1)]; in particular the last
delay (15) differs from the duration (30). -/
theorem C1_counterexample :
    (normalize_attack_plan 30 (RawPlan.list [evBare1, evBare2])).duration = 30 ∧
    ((normalize_attack_plan 30 (RawPlan.list [evBare1, evBare2])).plan.map (·.delay)) =
      [0, 15] ∧
    ((normalize_attack_plan 30 (RawPlan.list [evBare1, evBare2])).plan.map (·.delay)) ≠
      [0 * (30 / (2 - 1 : ℚ)), 1 * (30 / (2 - 1 : ℚ))] ∧
    ((normalize_attack_plan 30 (RawPlan.list [evBare1, evBare2])).plan.map
        (·.delay)).getLast? ≠
      some (normalize_attack_plan 30 (RawPlan.list [evBare1, evBare2])).duration := by
  simp +decide [normalize_attack_plan, evenDelays, evBare1, evBare2]
  norm_num

theorem evenDelays_map_delay (per : ℚ) : ∀ (k : Nat) (l : List Event),
    (evenDelays per k l).map (·.delay) =
      (List.range' k l.length).map (fun i : ℕ => (i : ℚ) * per) := by
  intro k l
  induction l generalizing k with
  | nil => rfl
  | cons e rest ih => simp [evenDelays, List.range'_succ, ih]

/-- C1 amended: on a bare nonempty list of events with sampled duration
`d` in [20, 40], the normalized plan's duration is `d` and its delays
are `i * d / N` (spacing `d / N`, N the event count — not the §4.1
spacing `d / (N-1)`): they are non-decreasing, the last delay is
`(N-1) * d / N`, and every delay is strictly below the duration. -/
theorem C1_amended (d : ℚ) (events : List Event)
    (h20 : 20 ≤ d) (h40 : d ≤ 40) (hne : events ≠ []) :
    (normalize_attack_plan d (RawPlan.list events)).duration = d ∧
    (normalize_attack_plan d (RawPlan.list events)).plan.map (·.delay) =
      (List.range events.length).map
        (fun i : ℕ => (i : ℚ) * (d / (events.length : ℚ))) ∧
    List.Pairwise (· ≤ ·)
      ((normalize_attack_plan d (RawPlan.list events)).plan.map (·.delay)) ∧
    ((normalize_attack_plan d (RawPlan.list events)).plan.map (·.delay)).getLast? =
      some (((events.length - 1 : ℕ) : ℚ) * (d / (events.length : ℚ))) ∧
    ∀ x ∈ (normalize_attack_plan d (RawPlan.list events)).plan.map (·.delay),
      x < d := by
  obtain ⟨a, l, rfl⟩ := List.exists_cons_of_ne_nil hne
  have hlen : (0 : ℚ) < ((a :: l).length : ℚ) := by
    exact_mod_cast Nat.succ_pos l.length
  have hd0 : (0 : ℚ) < d := lt_of_lt_of_le (by norm_num) h20
  have hper : (0 : ℚ) < d / ((a :: l).length : ℚ) := div_pos hd0 hlen
  have hmax : max (a :: l).length 1 = (a :: l).length :=
    Nat.max_eq_left (Nat.succ_le_of_lt (Nat.succ_pos l.length))
  have hplan : (normalize_attack_plan d (RawPlan.list (a :: l))).plan =
      evenDelays (d / ((a :: l).length : ℚ)) 0 (a :: l) := by
    simp [normalize_attack_plan, hmax]
  have hdur : (normalize_attack_plan d (RawPlan.list (a :: l))).duration = d := by
    simp [normalize_attack_plan]
  have hmap : (normalize_attack_plan d (RawPlan.list (a :: l))).plan.map (·.delay) =
      (List.range' 0 (a :: l).length).map
        (fun i : ℕ => (i : ℚ) * (d / ((a :: l).length : ℚ))) := by
    rw [hplan, evenDelays_map_delay]
  refine ⟨hdur, ?_, ?_, ?_, ?_⟩
  · rw [hmap, List.range_eq_range']
  · rw [hmap]
    exact List.Pairwise.map (fun i : ℕ => (i : ℚ) * (d / ((a :: l).length : ℚ)))
      (fun i j hij =>
        mul_le_mul_of_nonneg_right (by exact_mod_cast Nat.le_of_lt hij)
          (le_of_lt hper))
      (List.pairwise_lt_range' 0 (a :: l).length)
  · rw [hmap]
    have hcons : (a :: l).length = l.length + 1 := rfl
    rw [hcons, List.range'_concat, List.map_append]
    simp
  · intro x hx
    rw [hmap] at hx
    obtain ⟨i, hi, rfl⟩ := List.mem_map.mp hx
    have hilt : i < (a :: l).length := by
      have := (List.mem_range'_1.mp hi).2
      omega
    have hcast : (i : ℚ) < ((a :: l).length : ℚ) := by exact_mod_cast hilt
    calc (i : ℚ) * (d / ((a :: l).length : ℚ))
        < ((a :: l).length : ℚ) * (d / ((a :: l).length : ℚ)) :=
          mul_lt_mul_of_pos_right hcast hper
      _ = d := by field_simp

/-- C1 witness: the amended statement instantiated at duration 30 and
the two-event list. -/
theorem C1_amended_witness :
    ((20 : ℚ) ≤ 30 ∧ (30 : ℚ) ≤ 40 ∧ ([evBare1, evBare2] : List Event) ≠ []) ∧
    ((normalize_attack_plan 30 (RawPlan.list [evBare1, evBare2])).duration = 30 ∧
     (normalize_attack_plan 30 (RawPlan.list [evBare1, evBare2])).plan.map (·.delay) =
       (List.range ([evBare1, evBare2] : List Event).length).map
         (fun i : ℕ => (i : ℚ) * (30 / (([evBare1, evBare2] : List Event).length : ℚ))) ∧
     List.Pairwise (· ≤ ·)
       ((normalize_attack_plan 30 (RawPlan.list [evBare1, evBare2])).plan.map (·.delay)) ∧
     ((normalize_attack_plan 30 (RawPlan.list [evBare1, evBare2])).plan.map
         (·.delay)).getLast? =
       some (((([evBare1, evBare2] : List Event).length - 1 : ℕ) : ℚ) *
         (30 / (([evBare1, evBare2] : List Event).length : ℚ))) ∧
     ∀ x ∈ (normalize_attack_plan 30 (RawPlan.list [evBare1, evBare2])).plan.map
         (·.delay), x < 30) :=
  ⟨⟨by norm_num, by norm_num, by simp⟩,
   C1_amended 30 [evBare1, evBare2] (by norm_num) (by norm_num) (by simp)⟩

/-
C3 — dashboard() and time.
-/

/-- C3 counterexample: with the store fixed (no writes), two `dashboard`
calls at clock 10 and clock 100 disagree — the malicious event ages out
of the 15-second window, so the posture flips from ELEVATED to MONITOR
and the delta loses its malicious count.  Identical output is therefore
not guaranteed by "no intervening writes" alone. -/
theorem C3_counterexample :
    (dashboardCall storeMal 10).1 ≠ (dashboardCall storeMal 100).1 := by
  have h1 : (dashboardCall storeMal 10).1 =
      { posture := "ELEVATED", counts := ⟨0, 0, 1, 0⟩, total := 1,
        delta := ⟨0, 0, 1, 0⟩ } := by
    norm_num +decide [dashboardCall, dashboard, get_posture, get_deltas,
      get_dashboard_counts, get_events_in_window, sortNewestFirst,
      insertDescStable, countSeverities, bumpSeverity, groupByChain,
      determine_posture, dedupKeepFirst, secondsAgo, storeMal, evMal]
  have h2 : (dashboardCall storeMal 100).1 =
      { posture := "MONITOR", counts := ⟨0, 0, 1, 0⟩, total := 1,
        delta := ⟨0, 0, 0, 0⟩ } := by
    norm_num +decide [dashboardCall, dashboard, get_posture, get_deltas,
      get_dashboard_counts, get_events_in_window, sortNewestFirst,
      insertDescStable, countSeverities, bumpSeverity, groupByChain,
      determine_posture, dedupKeepFirst, secondsAgo, storeMal, evMal]
  rw [h1, h2]
  decide

/-- C3 amended: a `dashboard` call never writes the store, so two calls
with no intervening writes that observe the same clock value return
identical output; across different clock values the severity counts and
the total are still identical (they do not depend on the clock), while
posture and delta may change as events age out of the 15-second window. -/
theorem C3_amended (s : Store) (t u : ℚ) :
    (dashboardCall s t).2 = s ∧
    (dashboardCall ((dashboardCall s t).2) t).1 = (dashboardCall s t).1 ∧
    (dashboardCall s u).1.counts = (dashboardCall s t).1.counts ∧
    (dashboardCall s u).1.total = (dashboardCall s t).1.total :=
  ⟨rfl, rfl, rfl, rfl⟩

/-
C5 — the active-plan ceiling in trigger_attack.
-/

/-- C5: provided the request passes the (out-of-scope) per-IP cooldown
and rate limit, a `trigger_attack` call starting from an active set at
or below the ceiling leaves it at or below the ceiling, and a call
arriving with the active set at (or above) the ceiling returns status
"busy" and adds no plan. -/
theorem C5_active_plan_ceiling (st : TriggerState) (now : ℚ) (ip : String)
    (raw : RawPlan) (d : ℚ)
    (hcool : ¬ (now - (alistGet ip st.lastTrigger).getD 0 < TRIGGER_COOLDOWN))
    (hrate : (((alistGet ip st.history).getD []).filter
        (fun t => decide (now - 60 ≤ t))).length < MAX_TRIGGERS_PER_MIN)
    (hinv : st.plans.length ≤ MAX_ACTIVE_PLANS) :
    (trigger_attack st now ip raw d).2.plans.length ≤ MAX_ACTIVE_PLANS ∧
    (MAX_ACTIVE_PLANS ≤ st.plans.length →
      (trigger_attack st now ip raw d).1.status = "busy" ∧
      (trigger_attack st now ip raw d).2.plans = st.plans) := by
  simp only [trigger_attack]
  rw [if_neg hcool]
  rw [if_neg (Nat.not_le.mpr hrate)]
  by_cases hb : MAX_ACTIVE_PLANS ≤ st.plans.length
  · rw [if_pos hb]
    exact ⟨hinv, fun _ => ⟨rfl, rfl⟩⟩
  · rw [if_neg hb]
    rcases hcr : create_runtime_plan d raw now with _ | plan
    · simp only [hcr]
      exact ⟨hinv, fun h => absurd h hb⟩
    · simp only [hcr]
      constructor
      · simp only [List.length_append, List.length_cons, List.length_nil]
        omega
      · exact fun h => absurd h hb

/-- C5 witness: the ceiling branch exercised on a state already holding
15 active plans. -/
theorem C5_witness :
    (¬ ((10 : ℚ) - (alistGet "1.2.3.4" stBusy.lastTrigger).getD 0 < TRIGGER_COOLDOWN) ∧
     (((alistGet "1.2.3.4" stBusy.history).getD []).filter
        (fun t => decide ((10 : ℚ) - 60 ≤ t))).length < MAX_TRIGGERS_PER_MIN ∧
     stBusy.plans.length ≤ MAX_ACTIVE_PLANS) ∧
    ((trigger_attack stBusy 10 "1.2.3.4" RawPlan.other 30).2.plans.length ≤
        MAX_ACTIVE_PLANS ∧
     (trigger_attack stBusy 10 "1.2.3.4" RawPlan.other 30).1.status = "busy" ∧
     (trigger_attack stBusy 10 "1.2.3.4" RawPlan.other 30).2.plans = stBusy.plans) := by
  have hcool : ¬ ((10 : ℚ) - (alistGet "1.2.3.4" stBusy.lastTrigger).getD 0 <
      TRIGGER_COOLDOWN) := by
    norm_num [alistGet, stBusy, TRIGGER_COOLDOWN]
  have hrate : (((alistGet "1.2.3.4" stBusy.history).getD []).filter
      (fun t => decide ((10 : ℚ) - 60 ≤ t))).length < MAX_TRIGGERS_PER_MIN := by
    norm_num [alistGet, stBusy, MAX_TRIGGERS_PER_MIN]
  have hinv : stBusy.plans.length ≤ MAX_ACTIVE_PLANS := by decide
  have hat : MAX_ACTIVE_PLANS ≤ stBusy.plans.length := by decide
  have h := C5_active_plan_ceiling stBusy 10 "1.2.3.4" RawPlan.other 30 hcool hrate hinv
  exact ⟨⟨hcool, hrate, hinv⟩, h.1, (h.2 hat).1, (h.2 hat).2⟩

/-
C9 — nonzero ids are preserved; byId returns the newest match.
-/

theorem find?_append_of_none {p : Event → Bool} {l₁ l₂ : List Event}
    (h : l₁.find? p = none) : (l₁ ++ l₂).find? p = l₂.find? p := by
  simp [List.find?_append, h]

theorem getLast?_push (l : List Event) (x : Event) :
    (if MAX_EVENTS < (l ++ [x]).length then (l ++ [x]).tail
     else (l ++ [x])).getLast? = some x := by
  by_cases hlen : MAX_EVENTS < (l ++ [x]).length
  · rw [if_pos hlen]
    cases l with
    | nil => simp [MAX_EVENTS] at hlen
    | cons a t =>
      show (t ++ [x]).getLast? = some x
      exact List.getLast?_concat t
  · rw [if_neg hlen]
    exact List.getLast?_concat l

/-- C9: `add_event` never overwrites a nonzero id (the stored event —
the one appended last — keeps it), `get_event_by_id` returns the most
recently inserted event bearing the requested id (first match of the
newest-to-oldest scan), and returns none when no buffered event has it.
(The witness exhibits two buffered events sharing id 5: ids are not
unique.) -/
theorem C9_nonzero_id_and_lookup (now : ℚ) (s : Store) (e : Event)
    (eid eid2 : Nat) (l₁ l₂ : List Event) (e' : Event)
    (hid : e.id ≠ 0)
    (hsplit : s.events = l₁ ++ e' :: l₂)
    (he : e'.id = eid)
    (hafter : ∀ x ∈ l₂, x.id ≠ eid)
    (hnone : ∀ x ∈ s.events, x.id ≠ eid2) :
    (add_event now s e).1.id = e.id ∧
    (add_event now s e).2.events.getLast? = some ((add_event now s e).1) ∧
    get_event_by_id s eid = some e' ∧
    get_event_by_id s eid2 = none := by
  have hstored : (add_event now s e).1 = ensure_timestamp now e := by
    simp [add_event, hid]
  have hbuf : (add_event now s e).2.events =
      (if MAX_EVENTS < (s.events ++ [ensure_timestamp now e]).length then
        (s.events ++ [ensure_timestamp now e]).tail
       else (s.events ++ [ensure_timestamp now e])) := by
    simp [add_event, hid]
  refine ⟨?_, ?_, ?_, ?_⟩
  · rw [hstored, ensure_timestamp_id]
  · rw [hstored, hbuf]
    exact getLast?_push s.events (ensure_timestamp now e)
  · show (s.events.reverse.find? (fun x => x.id == eid)) = some e'
    rw [hsplit]
    have hrev : (l₁ ++ e' :: l₂).reverse = l₂.reverse ++ ([e'] ++ l₁.reverse) := by
      simp
    have hskip : l₂.reverse.find? (fun x => x.id == eid) = none := by
      refine List.find?_eq_none.mpr ?_
      intro x hx
      simp only [beq_iff_eq]
      exact hafter x (List.mem_reverse.mp hx)
    rw [hrev, find?_append_of_none hskip]
    have : ([e'] ++ l₁.reverse).find? (fun x => x.id == eid) = some e' := by
      simp [List.find?, he]
    exact this
  · show (s.events.reverse.find? (fun x => x.id == eid2)) = none
    refine List.find?_eq_none.mpr ?_
    intro x hx
    simp only [beq_iff_eq]
    exact hnone x (List.mem_reverse.mp hx)

/-- C9 witness: a store with two events both carrying id 5 — lookup of
id 5 finds the newer one, lookup of id 9 finds nothing, and adding an
event with id 7 keeps its id. -/
theorem C9_witness :
    (evSeven.id ≠ 0 ∧ storeDup.events = [evDup1] ++ evDup2 :: [] ∧
     evDup2.id = 5 ∧ (∀ x ∈ ([] : List Event), x.id ≠ 5) ∧
     (∀ x ∈ storeDup.events, x.id ≠ 9)) ∧
    ((add_event 3 storeDup evSeven).1.id = evSeven.id ∧
     (add_event 3 storeDup evSeven).2.events.getLast? =
       some ((add_event 3 storeDup evSeven).1) ∧
     get_event_by_id storeDup 5 = some evDup2 ∧
     get_event_by_id storeDup 9 = none) :=
  ⟨⟨by decide, rfl, rfl, by simp, by decide⟩,
   C9_nonzero_id_and_lookup 3 storeDup evSeven 5 9 [evDup1] [] evDup2
     (by decide) rfl rfl (by simp) (by decide)⟩

/-
C2 — determine_posture is exactly the spec's decision list.
-/

theorem foldlDedup_mem {α : Type} [BEq α] [LawfulBEq α] (x : α) :
    ∀ (l acc : List α),
      (x ∈ l.foldl (fun acc a => if acc.contains a then acc else acc ++ [a]) acc ↔
        x ∈ acc ∨ x ∈ l) := by
  intro l
  induction l with
  | nil => intro acc; simp
  | cons a rest ih =>
    intro acc
    simp only [List.foldl_cons]
    rw [ih]
    by_cases h : acc.contains a
    · rw [if_pos h]
      have ha : a ∈ acc := List.elem_iff.mp h
      constructor
      · rintro (hx | hx)
        · exact Or.inl hx
        · exact Or.inr (List.mem_cons_of_mem a hx)
      · rintro (hx | hx)
        · exact Or.inl hx
        · rcases List.mem_cons.mp hx with rfl | hx
          · exact Or.inl ha
          · exact Or.inr hx
    · rw [if_neg h]
      simp only [List.mem_append, List.mem_cons, List.mem_singleton]
      tauto

theorem mem_dedupKeepFirst {α : Type} [BEq α] [LawfulBEq α] (x : α) (l : List α) :
    x ∈ dedupKeepFirst l ↔ x ∈ l := by
  unfold dedupKeepFirst
  rw [foldlDedup_mem]
  simp

theorem count_source_ip (p : Event → Bool) (ip : String) (evs : List Event) :
    ((evs.filter p).map (·.source_ip)).count ip =
      evs.countP (fun e => p e && (e.source_ip == ip)) := by
  simp only [List.count_eq_countP, List.countP_map, List.countP_filter,
    Function.comp]
  congr 1
  funext e
  exact Bool.and_comm _ _

/-- C2: `determine_posture` evaluates the ordered first-match decision
list of §4.6 exactly as the spec words it: any critical chain summary →
LOCKDOWN; otherwise two or more malicious-severity events from the same
source address within the last 30 time units → RESTRICT; otherwise all
recent events benign (vacuously so for an empty window) → MONITOR;
otherwise ELEVATED. -/
theorem C2_determine_posture_matches_spec (now : ℚ) (recent_events : List Event)
    (chain_summaries : List ChainSummary) :
    determine_posture now recent_events chain_summaries =
      postureSpec now recent_events chain_summaries := by
  unfold determine_posture postureSpec
  have hcond :
      (!((recent_events.filter (fun e => e.severity == "malicious" &&
            decide (secondsAgo now e.timestamp ≤ 30))).map (·.source_ip)).isEmpty &&
        (dedupKeepFirst ((recent_events.filter (fun e => e.severity == "malicious" &&
            decide (secondsAgo now e.timestamp ≤ 30))).map (·.source_ip))).any
          (fun ip => decide (2 ≤ ((recent_events.filter
              (fun e => e.severity == "malicious" &&
                decide (secondsAgo now e.timestamp ≤ 30))).map
              (·.source_ip)).count ip))) =
      recent_events.any (fun e =>
        (e.severity == "malicious" && decide (secondsAgo now e.timestamp ≤ 30)) &&
        decide (2 ≤ recent_events.countP (fun f =>
          (f.severity == "malicious" && decide (secondsAgo now f.timestamp ≤ 30)) &&
          (f.source_ip == e.source_ip)))) := by
    rw [Bool.eq_iff_iff]
    simp only [Bool.and_eq_true, List.any_eq_true, Bool.not_eq_true',
      List.isEmpty_eq_false, decide_eq_true_eq, mem_dedupKeepFirst,
      count_source_ip]
    constructor
    · rintro ⟨-, ip, hip, hcount⟩
      obtain ⟨e, hef, hipeq⟩ := List.mem_map.mp hip
      obtain ⟨he, hpe⟩ := List.mem_filter.mp hef
      refine ⟨e, he, by simpa using hpe, ?_⟩
      rw [← hipeq] at hcount
      exact hcount
    · rintro ⟨e, he, hpe, hcount⟩
      have hip : e.source_ip ∈ (recent_events.filter
          (fun e => e.severity == "malicious" &&
            decide (secondsAgo now e.timestamp ≤ 30))).map (·.source_ip) :=
        List.mem_map.mpr ⟨e, List.mem_filter.mpr ⟨he, by simpa using hpe⟩, rfl⟩
      exact ⟨List.ne_nil_of_mem hip, e.source_ip, hip, hcount⟩
  simp only [hcond]

/-
C4 — id assignment and FIFO eviction in the event store.
-/

theorem stampIds_length (now : ℚ) : ∀ (k : Nat) (l : List Event),
    (stampIds now k l).length = l.length := by
  intro k l
  induction l generalizing k with
  | nil => rfl
  | cons e rest ih => simp [stampIds, ih]

theorem stampIds_map_id (now : ℚ) : ∀ (k : Nat) (l : List Event),
    (stampIds now k l).map (·.id) = List.range' (k + 1) l.length := by
  intro k l
  induction l generalizing k with
  | nil => rfl
  | cons e rest ih =>
    simp [stampIds, List.range'_succ, ih, ensure_timestamp_id]

theorem range'_drop : ∀ (n s m : ℕ),
    (List.range' s m).drop n = List.range' (s + n) (m - n) := by
  intro n
  induction n with
  | zero => intro s m; simp
  | succ n ih =>
    intro s m
    cases m with
    | zero => simp
    | succ m =>
      rw [List.range'_succ, List.drop_succ_cons, ih]
      congr 1
      · omega
      · omega

theorem addAll_fresh (now : ℚ) : ∀ (l : List Event), (∀ e ∈ l, e.id = 0) →
    ∀ (k : Nat) (buf : List Event), buf.length ≤ MAX_EVENTS →
    addAll now { events := buf, counter := k } l =
      { events := (buf ++ stampIds now k l).drop (buf.length + l.length - MAX_EVENTS),
        counter := k + l.length } := by
  intro l
  induction l with
  | nil =>
    intro _ k buf hbuf
    have hidx : buf.length - MAX_EVENTS = 0 := by omega
    simp [addAll, stampIds, hidx]
  | cons e rest ih =>
    intro h k buf hbuf
    have he0 : e.id = 0 := h e (List.mem_cons_self e rest)
    have hrest : ∀ x ∈ rest, x.id = 0 := fun x hx => h x (List.mem_cons_of_mem e hx)
    have hstep : addAll now { events := buf, counter := k } (e :: rest) =
        addAll now (add_event now { events := buf, counter := k } e).2 rest := rfl
    have hadd : (add_event now { events := buf, counter := k } e).2 =
        { events :=
            if MAX_EVENTS <
                (buf ++ [ensure_timestamp now { e with id := k + 1 }]).length then
              (buf ++ [ensure_timestamp now { e with id := k + 1 }]).tail
            else buf ++ [ensure_timestamp now { e with id := k + 1 }],
          counter := k + 1 } := by
      simp [add_event, he0]
    have hsta : stampIds now k (e :: rest) =
        ensure_timestamp now { e with id := k + 1 } :: stampIds now (k + 1) rest := rfl
    rw [hstep, hadd]
    by_cases hfull :
        MAX_EVENTS < (buf ++ [ensure_timestamp now { e with id := k + 1 }]).length
    · rw [if_pos hfull]
      have hfull' : MAX_EVENTS < buf.length + 1 := by
        simpa using hfull
      have hlb : buf.length = MAX_EVENTS := by omega
      have hpos : 0 < buf.length := by
        rw [hlb]
        simp [MAX_EVENTS]
      obtain ⟨b, bt, rfl⟩ := List.exists_cons_of_ne_nil (List.length_pos.mp hpos)
      have hbt : bt.length + 1 = MAX_EVENTS := by simpa using hlb
      have htail : ((b :: bt) ++ [ensure_timestamp now { e with id := k + 1 }]).tail =
          bt ++ [ensure_timestamp now { e with id := k + 1 }] := rfl
      rw [htail,
        ih hrest (k + 1) (bt ++ [ensure_timestamp now { e with id := k + 1 }])
          (by simp only [List.length_append, List.length_cons, List.length_nil]; omega)]
      have hi1 : (bt ++ [ensure_timestamp now { e with id := k + 1 }]).length +
          rest.length - MAX_EVENTS = rest.length := by
        simp only [List.length_append, List.length_cons, List.length_nil]
        omega
      have hi2 : (b :: bt).length + (e :: rest).length - MAX_EVENTS =
          rest.length + 1 := by
        simp only [List.length_cons]
        omega
      have hlist : (bt ++ [ensure_timestamp now { e with id := k + 1 }]) ++
          stampIds now (k + 1) rest =
          bt ++ ensure_timestamp now { e with id := k + 1 } ::
            stampIds now (k + 1) rest := by
        simp
      rw [hsta, hi1, hi2, hlist, List.cons_append, List.drop_succ_cons]
      simp only [Store.mk.injEq]
      exact ⟨trivial, by simp only [List.length_cons]; omega⟩
    · rw [if_neg hfull]
      have hfull' : ¬ (MAX_EVENTS < buf.length + 1) := by
        simpa using hfull
      rw [ih hrest (k + 1) (buf ++ [ensure_timestamp now { e with id := k + 1 }])
        (by simp only [List.length_append, List.length_cons, List.length_nil]; omega)]
      have hi1 : (buf ++ [ensure_timestamp now { e with id := k + 1 }]).length +
          rest.length - MAX_EVENTS =
          buf.length + (e :: rest).length - MAX_EVENTS := by
        simp only [List.length_append, List.length_cons, List.length_nil]
        omega
      have hlist : (buf ++ [ensure_timestamp now { e with id := k + 1 }]) ++
          stampIds now (k + 1) rest =
          buf ++ ensure_timestamp now { e with id := k + 1 } ::
            stampIds now (k + 1) rest := by
        simp
      rw [hsta, hi1, hlist]
      simp only [Store.mk.injEq]
      exact ⟨trivial, by simp only [List.length_cons]; omega⟩

/-- C4: feeding `n` fresh (id 0) events through `add_event` on an empty
store assigns them the strictly increasing ids 1..n (the counter ends at
n), and with capacity C = 500 the buffer keeps exactly `min n C` events:
the suffix starting at the (n-C+1)-th inserted event — the oldest are
evicted first — whose ids are `n-C+1 .. n`. -/
theorem C4_store_ids_and_eviction (now : ℚ) (l : List Event)
    (h : ∀ e ∈ l, e.id = 0) :
    (addAll now emptyStore l).counter = l.length ∧
    (addAll now emptyStore l).events =
      (stampIds now 0 l).drop (l.length - MAX_EVENTS) ∧
    (addAll now emptyStore l).events.length = min l.length MAX_EVENTS ∧
    (addAll now emptyStore l).events.map (·.id) =
      List.range' (l.length - MAX_EVENTS + 1) (min l.length MAX_EVENTS) := by
  have hmain := addAll_fresh now l h 0 [] (by simp)
  have h0 : emptyStore = { events := ([] : List Event), counter := 0 } := rfl
  rw [h0, hmain]
  refine ⟨by simp, by simp, ?_, ?_⟩
  · simp only [List.nil_append, List.length_drop, stampIds_length,
      List.length_nil, Nat.zero_add]
    omega
  · simp only [List.nil_append, List.length_nil, Nat.zero_add]
    rw [List.map_drop, stampIds_map_id, range'_drop]
    congr 1
    · omega
    · omega

/-- C4 witness: two fresh events on the empty store get ids 1 and 2 and
both stay buffered. -/
theorem C4_witness :
    (∀ e ∈ [evBare1, evBare2], e.id = 0) ∧
    ((addAll 7 emptyStore [evBare1, evBare2]).counter =
        ([evBare1, evBare2] : List Event).length ∧
     (addAll 7 emptyStore [evBare1, evBare2]).events =
       (stampIds 7 0 [evBare1, evBare2]).drop
         (([evBare1, evBare2] : List Event).length - MAX_EVENTS) ∧
     (addAll 7 emptyStore [evBare1, evBare2]).events.length =
       min ([evBare1, evBare2] : List Event).length MAX_EVENTS ∧
     (addAll 7 emptyStore [evBare1, evBare2]).events.map (·.id) =
       List.range' (([evBare1, evBare2] : List Event).length - MAX_EVENTS + 1)
         (min ([evBare1, evBare2] : List Event).length MAX_EVENTS)) :=
  ⟨by decide, C4_store_ids_and_eviction 7 [evBare1, evBare2] (by decide)⟩

/-
C6 / C7 — the scheduler tick.
-/

theorem emitFrom_fst (now start : ℚ) (fails : Event → Bool) :
    ∀ (l : List PlanEntry) (st : Store),
      (emitFrom now start fails l st).1 =
        (l.takeWhile (fun en => decide (start + en.delay ≤ now))).length := by
  intro l
  induction l with
  | nil => intro st; rfl
  | cons en rest ih =>
    intro st
    by_cases hdue : start + en.delay ≤ now
    · simp [emitFrom, hdue, List.takeWhile_cons, ih]
    · simp [emitFrom, hdue, List.takeWhile_cons]

theorem emitFrom_snd (now start : ℚ) (fails : Event → Bool) :
    ∀ (l : List PlanEntry) (st : Store),
      (emitFrom now start fails l st).2 =
        addAll now st
          (((l.takeWhile (fun en => decide (start + en.delay ≤ now))).map
            (fireEvent now)).filter (fun ev => !fails ev)) := by
  intro l
  induction l with
  | nil => intro st; rfl
  | cons en rest ih =>
    intro st
    by_cases hdue : start + en.delay ≤ now
    · by_cases hf : fails (fireEvent now en) = true
      · simp [emitFrom, hdue, hf, List.takeWhile_cons, ih]
      · simp only [Bool.not_eq_true] at hf
        simp [emitFrom, hdue, hf, List.takeWhile_cons, ih, addAll]
    · simp [emitFrom, hdue, List.takeWhile_cons, addAll]

theorem runPlan_eq (now : ℚ) (fails : Event → Bool) (p : RuntimePlan) (st : Store) :
    runPlan now fails p st =
      (advancePlan now p,
       addAll now st (((dueEntries now p).map (fireEvent now)).filter
         (fun ev => !fails ev))) := by
  simp only [runPlan, advancePlan, dueEntries, emitFrom_fst, emitFrom_snd]

theorem foldlAppend_acc {α β : Type} (g : α → List β) :
    ∀ (l : List α) (acc : List β),
      l.foldl (fun a x => a ++ g x) acc = acc ++ l.foldl (fun a x => a ++ g x) [] := by
  intro l
  induction l with
  | nil => intro acc; simp
  | cons x rest ih =>
    intro acc
    simp only [List.foldl_cons]
    rw [ih (acc ++ g x), ih ([] ++ g x)]
    simp [List.append_assoc]

theorem tickAttempts_cons (now : ℚ) (p : RuntimePlan) (ps : List RuntimePlan) :
    tickAttempts now (p :: ps) =
      (dueEntries now p).map (fireEvent now) ++ tickAttempts now ps := by
  unfold tickAttempts
  simp only [List.foldl_cons, List.nil_append]
  exact foldlAppend_acc _ ps ((dueEntries now p).map (fireEvent now))

theorem tickFold_eq (now : ℚ) (fails : Event → Bool) :
    ∀ (plans : List RuntimePlan) (acc : List RuntimePlan) (store : Store),
      plans.foldl (tickStep now fails) (acc, store) =
        (acc ++ plans.map (advancePlan now),
         addAll now store ((tickAttempts now plans).filter (fun ev => !fails ev))) := by
  intro plans
  induction plans with
  | nil => intro acc store; simp [tickAttempts, addAll]
  | cons p ps ih =>
    intro acc store
    simp only [List.foldl_cons]
    have hstep : tickStep now fails (acc, store) p =
        (acc ++ [advancePlan now p],
         addAll now store (((dueEntries now p).map (fireEvent now)).filter
           (fun ev => !fails ev))) := by
      simp only [tickStep, runPlan_eq]
    rw [hstep, ih]
    rw [tickAttempts_cons, List.filter_append]
    simp [addAll, List.foldl_append, List.append_assoc]

theorem scheduler_tick_eq (now : ℚ) (fails : Event → Bool)
    (plans : List RuntimePlan) (store : Store) :
    scheduler_tick now fails plans store =
      ((plans.map (advancePlan now)).filter
          (fun p => decide (p.index < p.plan.length)),
       addAll now store ((tickAttempts now plans).filter (fun ev => !fails ev))) := by
  unfold scheduler_tick
  rw [tickFold_eq now fails plans [] store]
  simp

/-- C6: during a tick at clock `now`, a plan's scan consumes exactly the
due prefix of its pending entries (the entries with
`start_time + delay ≤ now`, stopping at the first not-yet-due one) and
advances the cursor over it; and if every active plan's delays are
bounded by its duration, its cursor is in range, and the tick happens at
or after `start_time + duration`, then every plan reaches
`index = len(plan)` and is removed from the active set — which the tick
leaves empty — after the scan. -/
theorem C6_tick_emission_and_completion (now : ℚ) (fails : Event → Bool)
    (plans : List RuntimePlan) (store st : Store) (p : RuntimePlan)
    (hidx : ∀ q ∈ plans, q.index ≤ q.plan.length)
    (hdel : ∀ q ∈ plans, ∀ en ∈ q.plan, en.delay ≤ q.duration)
    (hend : ∀ q ∈ plans, q.start_time + q.duration ≤ now) :
    (runPlan now fails p st).1.index = p.index + (dueEntries now p).length ∧
    (scheduler_tick now fails plans store).1 = [] := by
  constructor
  · rw [runPlan_eq]
    rfl
  · rw [scheduler_tick_eq]
    show (plans.map (advancePlan now)).filter
      (fun q => decide (q.index < q.plan.length)) = []
    rw [List.filter_eq_nil_iff]
    intro a ha
    obtain ⟨q, hq, rfl⟩ := List.mem_map.mp ha
    have hall : (q.plan.drop q.index).takeWhile
        (fun en => decide (q.start_time + en.delay ≤ now)) = q.plan.drop q.index := by
      rw [List.takeWhile_eq_self_iff]
      intro en hen
      have h1 : en.delay ≤ q.duration := hdel q hq en (List.mem_of_mem_drop hen)
      have h2 : q.start_time + q.duration ≤ now := hend q hq
      simp only [decide_eq_true_eq]
      linarith
    have hle := hidx q hq
    simp only [advancePlan, dueEntries, hall, List.length_drop,
      decide_eq_true_eq]
    omega

/-- C6 witness: one two-entry plan whose duration has fully elapsed is
drained and removed by a single tick. -/
theorem C6_witness :
    ((∀ q ∈ [planTick], q.index ≤ q.plan.length) ∧
     (∀ q ∈ [planTick], ∀ en ∈ q.plan, en.delay ≤ q.duration) ∧
     (∀ q ∈ [planTick], q.start_time + q.duration ≤ (50 : ℚ))) ∧
    ((runPlan 50 (fun _ => false) planTick emptyStore).1.index =
        planTick.index + (dueEntries 50 planTick).length ∧
     (scheduler_tick 50 (fun _ => false) [planTick] emptyStore).1 = []) := by
  have h1 : ∀ q ∈ [planTick], q.index ≤ q.plan.length := by
    intro q hq
    rw [List.mem_singleton] at hq
    subst hq
    norm_num [planTick]
  have h2 : ∀ q ∈ [planTick], ∀ en ∈ q.plan, en.delay ≤ q.duration := by
    intro q hq en hen
    rw [List.mem_singleton] at hq
    subst hq
    simp only [planTick, List.mem_cons, List.mem_singleton] at hen
    rcases hen with rfl | hen
    · norm_num [planTick]
    · rcases hen with rfl | hen
      · norm_num [planTick]
      · simp at hen
  have h3 : ∀ q ∈ [planTick], q.start_time + q.duration ≤ (50 : ℚ) := by
    intro q hq
    rw [List.mem_singleton] at hq
    subst hq
    norm_num [planTick]
  exact ⟨⟨h1, h2, h3⟩,
    C6_tick_emission_and_completion 50 (fun _ => false) [planTick] emptyStore
      emptyStore planTick h1 h2 h3⟩

/-- C7: a storage failure during emission (any pattern of `add_event`
raises, swallowed per entry) does not change which plans survive the
tick or their cursors — they equal the no-failure outcome — and the
store receives exactly the attempted emissions that did not fail, in
order; so failing entries degrade to missing events, never to a stuck
plan. -/
theorem C7_storage_failure_swallowed (now : ℚ) (fails : Event → Bool)
    (plans : List RuntimePlan) (store : Store) :
    (scheduler_tick now fails plans store).1 =
      (scheduler_tick now (fun _ => false) plans store).1 ∧
    (scheduler_tick now fails plans store).2 =
      addAll now store ((tickAttempts now plans).filter (fun ev => !fails ev)) := by
  constructor
  · rw [scheduler_tick_eq, scheduler_tick_eq]
  · rw [scheduler_tick_eq]

end MotherDemo
